import Mathlib

set_option autoImplicit false

/-!
Verification of the syn syntax-highlighter grammar compiler and selection layer.

The definitions below are a shallow embedding of the Go sources:
  * lexer.go: the lexerBuilder pipeline (validate, build, combined states,
    include resolution) and prioritisedLexers.
  * registry.go: LexerRegistry.Match.
Parts of the repository that are not available as source (the internal config
package, the rules/state table type, the tokenizer) are modelled from the
specification and are marked as such in their doc comments.

External collaborators are modelled as follows:
  * regexp2: a compiled pattern is its source string plus its match timeout in
    milliseconds; whether a source compiles is an oracle parameter
    (compileOk : String -> Bool).
  * mylog (error handling helpers): mylog.Check and mylog.Check2 panic when the
    error is non-nil, which aborts the surrounding Build call; this is modelled
    as Except.error propagation.  mylog.CheckIgnore logs the error and
    discards it; this is modelled by discarding the value.
  * Divergence (unbounded recursion in Go) is modelled with fuel: a result of
    none means the computation was still recursing when any given budget ran
    out, i.e. it does not terminate.
-/

/-- Model of a compiled regexp2.Regexp: the pattern source that was compiled
and the MatchTimeout that was set on it, in milliseconds. -/
structure Regexp where
  source : String
  matchTimeoutMs : Nat
  deriving Repr, DecidableEq, Inhabited

/-- Reasons a rule can be rejected by lexerBuilder.checkRule.  Each constructor
corresponds to one fmt.Errorf site in checkRule. -/
inductive ConflictReason where
  /-- Rule has no pattern, no include, no push and no pop statement. -/
  | emptyRule
  /-- Rule contains both a push and a pop. -/
  | pushAndPop
  /-- Rule has both a Token and an Include. -/
  | tokenAndInclude
  /-- Rule has both a Token and a ByGroups. -/
  | tokenAndByGroups
  /-- Rule has both an Include and a ByGroups. -/
  | includeAndByGroups
  /-- Rule has both a Combined and either a Push, Pop or Include. -/
  | combinedWithStackOp
  deriving Repr, DecidableEq

/-- Build-time errors of the lexerBuilder, named after the error kinds of the
specification; each constructor corresponds to one fmt.Errorf site in
lexer.go. -/
inductive BuildError where
  /-- validate: no state is named root. -/
  | missingRootState
  /-- validate/makeMissingError: the listed states are referred to from rules
  (push targets) but are not defined. -/
  | danglingStateReference (missing : List String)
  /-- checkRule: a rule combines incompatible actions. -/
  | conflictingRuleAction (reason : ConflictReason)
  /-- makeRule: the pattern failed to compile. -/
  | invalidPattern (pat : String)
  /-- resolveIncludesIn: a rule includes the named state but no such state is
  in the lexer. -/
  | includeOfUndefinedState (name : String)
  /-- createCombinedStateInRule: a state referred to from a combined element
  does not exist. -/
  | combinedSubstateMissing (substate : String) (inState : String)
  deriving Repr, DecidableEq

/-- Modelled from the spec: config.Token, a token directive carrying the name
of a token type of the closed enumeration. -/
structure ConfigToken where
  type : String
  deriving Repr, DecidableEq

/-- Modelled from the spec: config.Push, a push directive naming the target
state. -/
structure ConfigPush where
  state : String
  deriving Repr, DecidableEq

/-- Modelled from the spec: config.Pop, a pop directive with a depth. -/
structure ConfigPop where
  depth : Nat
  deriving Repr, DecidableEq

/-- Modelled from the spec: config.Include, an include directive naming the
included state. -/
structure ConfigInclude where
  state : String
  deriving Repr, DecidableEq

/-- Modelled from the spec: config.Combined, a combined directive with its
ordered list of substate names. -/
structure ConfigCombined where
  states : List String
  deriving Repr, DecidableEq

/-- Modelled from the spec: one element of a ByGroups directive, either a
token type or a using-self sub-tokenization of the group. -/
inductive ConfigByGroupsElement where
  | token (type : String)
  | usingSelf (state : String)
  deriving Repr, DecidableEq

/-- Modelled from the spec: config.ByGroups, a list of per-group elements. -/
structure ConfigByGroups where
  elements : List ConfigByGroupsElement
  deriving Repr, DecidableEq

/-- Modelled from the spec: config.UsingSelf. -/
structure ConfigUsingSelf where
  state : String
  deriving Repr, DecidableEq

/-- Modelled from the spec: config.Rule, the declarative form of a rule.  Go
represents absent directives as nil pointers, modelled here as none. -/
structure ConfigRule where
  pattern : String := ""
  token : Option ConfigToken := none
  push : Option ConfigPush := none
  pop : Option ConfigPop := none
  «include» : Option ConfigInclude := none
  combined : Option ConfigCombined := none
  byGroups : Option ConfigByGroups := none
  usingSelf : Option ConfigUsingSelf := none
  deriving Repr, DecidableEq

/-- Modelled from the spec: config.State, a named ordered list of rules. -/
structure ConfigState where
  name : String
  rules : List ConfigRule
  deriving Repr, DecidableEq

/-- Modelled from the spec: the part of config.Lexer the builder consumes,
namely cfg.Rules.States. -/
structure ConfigLexer where
  states : List ConfigState
  deriving Repr, DecidableEq

/-- Modelled from the spec: one element of the byGroups list of a compiled
rule (byGroupElement in the Go source); zero values stand for absent
fields. -/
structure byGroupElement where
  tok : String := ""
  useSelfState : String := ""
  deriving Repr, DecidableEq

/-- Modelled from the spec and the uses in lexer.go: the compiled rule type.
Not all of its fields are given in src; the fields below are exactly the ones
lexer.go assigns.  Go zero values stand for absent fields. -/
structure rule where
  pattern : Regexp := default
  tok : String := ""
  popDepth : Nat := 0
  pushState : String := ""
  «include» : String := ""
  byGroups : List byGroupElement := []
  useSelfState : String := ""
  deriving Repr, DecidableEq, Inhabited

/-- Modelled from the spec and stack_test.go: a named state of the compiled
state table. -/
structure state where
  name : String := ""
  rules : List rule := []
  deriving Repr, DecidableEq, Inhabited

/-- Modelled from the spec: the state table (the rules type of the Go source),
a mapping from state name to state.  A Go map is modelled as an association
list whose keys are unique by construction. -/
abbrev rulesMap := List (String × state)

/-- Modelled from the spec: the empty state table (newRules). -/
def rulesMap.newRules : rulesMap := []

/-- Modelled from the spec: map lookup (rules.Get). -/
def rulesMap.Get (t : rulesMap) (name : String) : Option state :=
  (t.find? (fun p => p.1 == name)).map (fun p => p.2)

/-- Modelled from the spec: key membership (rules.Contains). -/
def rulesMap.Contains (t : rulesMap) (name : String) : Bool :=
  t.any (fun p => p.1 == name)

/-- Modelled from the spec: map insertion (rules.AddState); assigning to an
existing key replaces its value in place. -/
def rulesMap.AddState (t : rulesMap) (s : state) : rulesMap :=
  if t.Contains s.name then
    t.map (fun p => if p.1 == s.name then (s.name, s) else p)
  else
    t ++ [(s.name, s)]

/-- Modelled from the spec: TokenTypeString maps a token type name to the
closed TokenType enumeration.  The enumeration itself is not part of the
sources under verification, so the type is modelled as the name itself and
the lookup as total; no claim depends on an unknown type name. -/
def TokenTypeString (s : String) : Except BuildError String :=
  Except.ok s

/-- Translation of lexerBuilder.makeMissingError (lexer.go): nil or empty
missing list means no error, otherwise the error lists every name. -/
def makeMissingError (missing : List String) : Except BuildError Unit :=
  if missing.isEmpty then Except.ok ()
  else Except.error (BuildError.danglingStateReference missing)

/-- Translation of lexerBuilder.validate (lexer.go): require a state named
root, then collect, in declaration order, every push target that names an
undefined state and turn the collection into an error via makeMissingError.
Include targets are not inspected here. -/
def validate (cfg : ConfigLexer) : Except BuildError Unit :=
  if ¬ cfg.states.any (fun s => s.name == "root") then
    Except.error BuildError.missingRootState
  else
    let stateNames := cfg.states.map (fun s => s.name)
    let missing := cfg.states.flatMap (fun st =>
      st.rules.filterMap (fun r =>
        match r.push with
        | none => none
        | some p =>
          if p.state == "" then none
          else if stateNames.contains p.state then none
          else some p.state))
    makeMissingError missing

/-- Translation of lexerBuilder.checkRule (lexer.go): the sequence of
conflict checks, in source order, first failure wins. -/
def checkRule (r : ConfigRule) : Except BuildError Unit :=
  if r.pattern = "" ∧ r.push = none ∧ r.pop = none ∧ r.«include» = none then
    Except.error (BuildError.conflictingRuleAction ConflictReason.emptyRule)
  else if r.pop ≠ none ∧ r.push ≠ none then
    Except.error (BuildError.conflictingRuleAction ConflictReason.pushAndPop)
  else if r.token ≠ none ∧ r.«include» ≠ none then
    Except.error (BuildError.conflictingRuleAction ConflictReason.tokenAndInclude)
  else if r.token ≠ none ∧ r.byGroups ≠ none then
    Except.error (BuildError.conflictingRuleAction ConflictReason.tokenAndByGroups)
  else if r.«include» ≠ none ∧ r.byGroups ≠ none then
    Except.error (BuildError.conflictingRuleAction ConflictReason.includeAndByGroups)
  else if r.combined ≠ none ∧ (r.push ≠ none ∨ r.pop ≠ none ∨ r.«include» ≠ none) then
    Except.error (BuildError.conflictingRuleAction ConflictReason.combinedWithStackOp)
  else
    Except.ok ()

/-- Translation of lexerBuilder.makeRule (lexer.go): prepend an anchor to the
declared pattern, compile it (compilability decided by the oracle compileOk),
and set MatchTimeout to 250 milliseconds on the compiled matcher. -/
def makeRule (compileOk : String → Bool) (pattern : String) : Except BuildError rule :=
  let pat := "\\A" ++ pattern
  if compileOk pat then
    Except.ok { pattern := { source := pat, matchTimeoutMs := 250 } }
  else
    Except.error (BuildError.invalidPattern pat)

/-- Translation of lexerBuilder.combinedStateName (lexer.go). -/
def combinedStateName (c : ConfigCombined) : String :=
  "__combined_" ++ String.intercalate "__" c.states

/-- Translation of lexerBuilder.updatePushForCombinedState (lexer.go): a rule
declaring a combined element has its push target rewritten to the combined
state name. -/
def updatePushForCombinedState (r : rule) (cr : ConfigRule) : rule :=
  match cr.combined with
  | none => r
  | some c => { r with pushState := combinedStateName c }

/-- Translation of lexerBuilder.setRuleFieldsFrom (lexer.go): copy the config
rule directives onto the compiled rule. -/
def setRuleFieldsFrom (r : rule) (cr : ConfigRule) : Except BuildError rule := do
  let r ← match cr.token with
    | some t => do
      let typ ← TokenTypeString t.type
      pure { r with tok := typ }
    | none => pure r
  let r := match cr.pop with
    | some p => { r with popDepth := p.depth }
    | none => r
  let r := match cr.push with
    | some p => { r with pushState := p.state }
    | none => r
  let r := match cr.«include» with
    | some i => { r with «include» := i.state }
    | none => r
  let r ← match cr.byGroups with
    | some bg => do
      let ges ← bg.elements.mapM (fun e =>
        match e with
        | ConfigByGroupsElement.token t => do
          let typ ← TokenTypeString t
          pure { tok := typ : byGroupElement }
        | ConfigByGroupsElement.usingSelf s =>
          pure { useSelfState := s : byGroupElement })
      pure { r with byGroups := ges }
    | none => pure r
  let r := match cr.usingSelf with
    | some u => { r with useSelfState := u.state }
    | none => r
  pure r

/-- Translation of lexerBuilder.ruleSequence (lexer.go): check, compile and
populate each rule in order; the first error aborts (mylog.Check panics). -/
def ruleSequence (compileOk : String → Bool) (crs : List ConfigRule) :
    Except BuildError (List rule) :=
  crs.mapM (fun cr => do
    checkRule cr
    let r ← makeRule compileOk cr.pattern
    let r := updatePushForCombinedState r cr
    setRuleFieldsFrom r cr)

/-- Translation of the substate-collection loop of
lexerBuilder.createCombinedStateInRule (lexer.go): append the rules of each
listed substate, in order, to the accumulator; a missing substate aborts. -/
def collectCombined (tbl : rulesMap) (inState : String) :
    List String → List rule → Except BuildError (List rule)
  | [], acc => Except.ok acc
  | s :: ss, acc =>
    match tbl.Get s with
    | none => Except.error (BuildError.combinedSubstateMissing s inState)
    | some st => collectCombined tbl inState ss (acc ++ st.rules)

/-- Translation of lexerBuilder.createCombinedStateInRule (lexer.go): nothing
to do without a combined element; creation is skipped when the table already
contains the combined state name; otherwise the new state holds the
concatenation of the current rules of the listed substates. -/
def createCombinedStateInRule (tbl : rulesMap) (stateName : String) (cr : ConfigRule) :
    Except BuildError rulesMap :=
  match cr.combined with
  | none => Except.ok tbl
  | some c =>
    let nm := combinedStateName c
    if tbl.Contains nm then Except.ok tbl
    else do
      let rs ← collectCombined tbl stateName c.states []
      pure (tbl.AddState { name := nm, rules := rs })

/-- Translation of lexerBuilder.createCombinedStates (lexer.go): run
createCombinedStateInRule over every rule of the config state. -/
def createCombinedStates (tbl : rulesMap) (st : ConfigState) :
    Except BuildError rulesMap :=
  st.rules.foldlM (fun t cr => createCombinedStateInRule t st.name cr) tbl

/-- Translation of lexerBuilder.build (lexer.go): first add every declared
state with its compiled rule sequence, then create the combined states
declared by any rule. -/
def buildStates (compileOk : String → Bool) (cfg : ConfigLexer) :
    Except BuildError rulesMap := do
  let tbl ← cfg.states.foldlM
    (fun (t : rulesMap) xmlState => do
      let seq ← ruleSequence compileOk xmlState.rules
      pure (t.AddState { name := xmlState.name, rules := seq }))
    rulesMap.newRules
  cfg.states.foldlM (fun t xmlState => createCombinedStates t xmlState) tbl

/-- Translation of lexerBuilder.resolveIncludesIn (lexer.go).  The Go function
recurses without any cycle guard, so the embedding carries fuel, one unit per
recursive call (both stepping along the rule list and descending into an
included state): a result of none means the recursion outlived the given
budget; a computation that returns none for EVERY budget diverges.  Lookups
go to the table as it was before resolution started, exactly as in Go, where
lb.lexer.rules is replaced only after every state is resolved. -/
def resolveIncludesIn (tbl : rulesMap) : Nat → List rule → Option (Except BuildError (List rule))
  | 0, _ => none
  | _ + 1, [] => some (Except.ok [])
  | f + 1, r :: rs =>
    if r.«include» = "" then
      match resolveIncludesIn tbl f rs with
      | none => none
      | some (Except.error e) => some (Except.error e)
      | some (Except.ok rest) => some (Except.ok (r :: rest))
    else
      match tbl.Get r.«include» with
      | none => some (Except.error (BuildError.includeOfUndefinedState r.«include»))
      | some st =>
        match resolveIncludesIn tbl f st.rules with
        | none => none
        | some (Except.error e) => some (Except.error e)
        | some (Except.ok resolved) =>
          match resolveIncludesIn tbl f rs with
          | none => none
          | some (Except.error e) => some (Except.error e)
          | some (Except.ok rest) => some (Except.ok (resolved ++ rest))

/-- Translation of the loop body of lexerBuilder.resolveIncludes (lexer.go):
resolve the rule list of every state of the second table against the first
(original) table. -/
def resolveIncludesGo (tbl : rulesMap) (fuel : Nat) : rulesMap → Option (Except BuildError rulesMap)
  | [] => some (Except.ok [])
  | (name, st) :: rest =>
    match resolveIncludesIn tbl fuel st.rules with
    | none => none
    | some (Except.error e) => some (Except.error e)
    | some (Except.ok list) =>
      match resolveIncludesGo tbl fuel rest with
      | none => none
      | some (Except.error e) => some (Except.error e)
      | some (Except.ok restMap) => some (Except.ok ((name, { st with rules := list }) :: restMap))

/-- Translation of lexerBuilder.resolveIncludes (lexer.go): build a new table
whose every state has its rule list resolved against the original table. -/
def resolveIncludes (tbl : rulesMap) (fuel : Nat) : Option (Except BuildError rulesMap) :=
  resolveIncludesGo tbl fuel tbl

/-- Translation of lexerBuilder.Build (lexer.go).  The result of validate is
passed to mylog.CheckIgnore, which logs and DISCARDS it, so validation
failures never abort the build; errors raised inside build and
resolveIncludes do abort (mylog.Check panics).  none models divergence of
include resolution. -/
def Build (compileOk : String → Bool) (fuel : Nat) (cfg : ConfigLexer) :
    Option (Except BuildError rulesMap) :=
  let _ := validate cfg
  match buildStates compileOk cfg with
  | Except.error e => some (Except.error e)
  | Except.ok tbl => resolveIncludes tbl fuel

/-- Modelled from the spec: the selection metadata of a grammar (the Config
part of config.Lexer the registry consumes). -/
structure LexerConfig where
  name : String := ""
  aliases : List String := []
  filenames : List String := []
  mimeTypes : List String := []
  priority : Int := 0
  deriving Repr, DecidableEq

/-- Translation of prioritisedLexers.Less (lexer.go): compare effective
priorities, where zero counts as 1 and higher sorts first. -/
def prioritisedLexersLess (a b : LexerConfig) : Bool :=
  let ip := if a.priority = 0 then 1 else a.priority
  let jp := if b.priority = 0 then 1 else b.priority
  ip > jp

/-- Model of sort.Sort over prioritisedLexers: order by the Less relation of
the source, highest effective priority first. -/
def sortLexers (ls : List LexerConfig) : List LexerConfig :=
  ls.mergeSort (fun a b => ! prioritisedLexersLess b a)

/-- Model of path/filepath.Base restricted to what Match needs: the final
slash-separated component of the filename. -/
def filepathBase (s : String) : String :=
  ((s.splitOn "/").getLast?).getD s

/-- Translation of LexerRegistry.Match (registry.go).  The inner loop body
only evaluates filepath.Match (modelled by the oracle globMatch, where none
stands for a malformed-pattern error, which mylog.Check2 turns into a panic)
and discards its result: nothing is ever appended to matched, which therefore
stays empty, and the function returns none for every input. -/
def RegistryMatch (globMatch : String → String → Option Bool)
    (lexers : List LexerConfig) (filename : String) :
    Except String (Option LexerConfig) := do
  let filename := filepathBase filename
  let matched : List LexerConfig := []
  -- First, try primary filename matches.
  lexers.forM (fun lexer =>
    lexer.filenames.forM (fun glob =>
      match globMatch glob filename with
      | none => Except.error "filepath.Match: bad pattern"
      | some _ => Except.ok ()))
  if matched.length > 0 then
    pure (sortLexers matched).head?
  else
    pure none

/-!
Tokenizer.  The tokenizing engine (the iterator) is not among the provided
sources, so it is modelled from the specification, section 4.2.
-/

/-- Modelled from the spec: an output token: type, start offset and length. -/
structure Token where
  typ : String
  start : Nat
  length : Nat
  deriving Repr, DecidableEq

/-- Modelled from the spec: a rule as the tokenizer sees it.  The anchored,
time-boxed pattern matcher is abstracted as a function from the text and the
current position to the optional match length (none covers both a non-match
and a timeout, which the spec treats as a non-match). -/
structure SRule where
  matchAt : List Char → Nat → Option Nat
  tok : String := ""
  pushState : String := ""
  popDepth : Nat := 0

/-- Modelled from the spec: the state table as consumed by the tokenizer. -/
abbrev STable := List (String × List SRule)

/-- Modelled from the spec: rule lookup for a state name. -/
def STable.rulesOf (tbl : STable) (name : String) : List SRule :=
  (((tbl.find? (fun p => p.1 == name)).map (fun p => p.2))).getD []

/-- Modelled from the spec: scan the rules in declared order and return the
first rule whose pattern matches at the current position, with its length. -/
def findMatch : List SRule → List Char → Nat → Option (SRule × Nat)
  | [], _, _ => none
  | r :: rs, text, p =>
    match r.matchAt text p with
    | some n => some (r, n)
    | none => findMatch rs text p

/-- Modelled from the spec: apply the push or pop of a matched rule to the
state stack.  A push appends the target name, with #push re-pushing the
current state; a pop removes min(depth, stackLen-1) entries, keeping the
floor. -/
def applyStack (r : SRule) (stack : List String) : List String :=
  if r.pushState ≠ "" then
    if r.pushState = "#push" then (stack.headD "root") :: stack
    else r.pushState :: stack
  else if r.popDepth > 0 then
    stack.drop (min r.popDepth (stack.length - 1))
  else stack

/-- Modelled from the spec: the Error token emitted by the fallback, covering
exactly one character at the given position. -/
def errorToken (p : Nat) : Token :=
  { typ := "Error", start := p, length := 1 }

/-- Modelled from the spec, section 4.2, one step of the tokenizer at position
p with the given state stack: scan the top-of-stack state for the first
matching rule; on a match emit one token of the matched length and apply the
stack action; when no rule matches, or a matched rule consumed zero
characters without changing the stack, emit one Error token covering exactly
one character and advance by one. -/
def step (tbl : STable) (text : List Char) (p : Nat) (stack : List String) :
    List Token × Nat × List String :=
  let rules := tbl.rulesOf (stack.headD "root")
  match findMatch rules text p with
  | none => ([errorToken p], p + 1, stack)
  | some (r, n) =>
    let stack1 := applyStack r stack
    if n = 0 ∧ stack1 = stack then ([errorToken p], p + 1, stack)
    else ([{ typ := r.tok, start := p, length := n }], p + n, stack1)

/-- Modelled from the spec: the iteration loop, with fuel; none means the loop
was still running when any given budget ran out. -/
def tokenize (tbl : STable) (text : List Char) : Nat → Nat → List String → Option (List Token)
  | 0, _, _ => none
  | fuel + 1, p, stack =>
    if text.length ≤ p then some []
    else
      match step tbl text p stack with
      | (ts, p1, stack1) => (tokenize tbl text fuel p1 stack1).map (fun rest => ts ++ rest)

/-- Divergence of the tokenizer on a given table and text from the initial
state (position 0, stack seeded with root): no budget is ever enough. -/
def tokenizeDiverges (tbl : STable) (text : List Char) : Prop :=
  ∀ fuel, tokenize tbl text fuel 0 ["root"] = none

/-- Divergence of Build on a given configuration: no fuel budget for include
resolution is ever enough. -/
def buildDiverges (compileOk : String → Bool) (cfg : ConfigLexer) : Prop :=
  ∀ fuel, Build compileOk fuel cfg = none

/-!
Concrete configurations and helpers used by the claims.
-/

/-- Oracle under which every pattern compiles (regexp2 accepts it). -/
def okAll : String → Bool := fun _ => true

/-- Decide whether a build result is a usable table (a successful build). -/
def isUsable (o : Option (Except BuildError rulesMap)) : Bool :=
  match o with
  | some (Except.ok _) => true
  | _ => false

/-- Extract the table of a successful build (junk on a failed build). -/
def builtTable (o : Option (Except BuildError rulesMap)) : rulesMap :=
  match o with
  | some (Except.ok t) => t
  | _ => []

/-- Decide whether an Except value is an error. -/
def isErr {ε α : Type} (e : Except ε α) : Bool :=
  match e with
  | Except.error _ => true
  | Except.ok _ => false

/-- Configuration that defines no state named root. -/
def cfgNoRoot : ConfigLexer :=
  { states := [ { name := "main",
                  rules := [ { pattern := "x", token := some { type := "Text" } } ] } ] }

/-- Configuration whose root state pushes the undefined state ghost. -/
def cfgDanglingPush : ConfigLexer :=
  { states := [ { name := "root",
                  rules := [ { pattern := "x", token := some { type := "Text" },
                               push := some { state := "ghost" } } ] } ] }

/-- Configuration whose root state includes the undefined state ghost. -/
def cfgDanglingInclude : ConfigLexer :=
  { states := [ { name := "root",
                  rules := [ { pattern := "a", token := some { type := "Text" } },
                             { «include» := some { state := "ghost" } } ] } ] }

/-- Configuration whose root state includes itself: a pure include cycle. -/
def cfgIncludeCycle : ConfigLexer :=
  { states := [ { name := "root",
                  rules := [ { «include» := some { state := "root" } } ] } ] }

/-- C1: the spec says Build fails with MissingRootState when no state is
named root and that a failed build leaves no usable table.  The code computes
exactly that error in validate, but Build hands it to mylog.CheckIgnore,
which discards it: the build continues and returns a usable table with a nil
error. -/
theorem build_ignores_missing_root :
    validate cfgNoRoot = Except.error BuildError.missingRootState ∧
    isUsable (Build okAll 10 cfgNoRoot) = true := by
  exact ⟨rfl, rfl⟩

/-- C2: the spec says Build fails with DanglingStateReference listing every
state name referenced by a Push or Include target that is not defined.  The
code computes the push-target list in validate, but Build discards the
result (mylog.CheckIgnore), so a dangling push target still builds a usable
table; a dangling include target is not checked by validate at all and
instead aborts include resolution with an error naming only that single
state. -/
theorem build_ignores_dangling_push_refs :
    validate cfgDanglingPush = Except.error (BuildError.danglingStateReference ["ghost"]) ∧
    isUsable (Build okAll 10 cfgDanglingPush) = true ∧
    Build okAll 10 cfgDanglingInclude =
      some (Except.error (BuildError.includeOfUndefinedState "ghost")) := by
  exact ⟨rfl, rfl, rfl⟩

/-- Oracle for filepath.Match that agrees with the real matcher on the inputs
of the claim: the pattern *.go is well formed and matches main.go. -/
def globOracle : String → String → Option Bool :=
  fun g f => some (g == "*.go" && f == "main.go")

/-- Registered lexer whose grammar declares the filename glob *.go and no
explicit priority. -/
def goLexerCfg : LexerConfig := { name := "Go", filenames := ["*.go"] }

/-- C9: the spec says Match returns a matching lexer of maximal priority when
some registered filename glob matches the base name.  The Go loop evaluates
filepath.Match for every glob but discards the result and never appends to
matched, so matched stays empty and Match returns nil even though the glob of
the only registered lexer matches the filename. -/
theorem registry_match_always_none :
    globOracle "*.go" "main.go" = some true ∧
    RegistryMatch globOracle [goLexerCfg] "main.go" = Except.ok none := by
  exact ⟨rfl, rfl⟩

/-- Fixed point of the include cycle: the compiled rule list of the root state
of cfgIncludeCycle, a single rule that includes root itself. -/
def cycleRules : List rule :=
  [ { pattern := { source := "\\A", matchTimeoutMs := 250 }, «include» := "root" } ]

/-- State table built from cfgIncludeCycle before include resolution. -/
def tblCycle : rulesMap := [("root", { name := "root", rules := cycleRules })]

/-- Include resolution of the self-include never finishes under any budget. -/
theorem resolveIncludesIn_cycle (f : Nat) :
    resolveIncludesIn tblCycle f cycleRules = none := by
  induction f with
  | zero => rfl
  | succ f ih =>
    show (match resolveIncludesIn tblCycle f cycleRules with
      | none => none
      | some (Except.error e) => some (Except.error e)
      | some (Except.ok resolved) =>
        match resolveIncludesIn tblCycle f [] with
        | none => none
        | some (Except.error e) => some (Except.error e)
        | some (Except.ok rest) => some (Except.ok (resolved ++ rest))) = none
    rw [ih]

/-- C5: the spec requires include resolution to terminate, rejecting dangling
names and cycles at build time.  Dangling include targets do abort the build,
but the resolver has no cycle guard: on a configuration whose root state
includes itself, Build diverges (no budget is ever enough) instead of failing
at build time. -/
theorem include_cycle_diverges :
    buildDiverges okAll cfgIncludeCycle ∧
    Build okAll 10 cfgDanglingInclude =
      some (Except.error (BuildError.includeOfUndefinedState "ghost")) := by
  constructor
  · intro fuel
    show (match resolveIncludesIn tblCycle fuel cycleRules with
      | none => none
      | some (Except.error e) => some (Except.error e)
      | some (Except.ok list) =>
        match resolveIncludesGo tblCycle fuel [] with
        | none => none
        | some (Except.error e) => some (Except.error e)
        | some (Except.ok restMap) =>
          some (Except.ok (("root", { name := "root", rules := list }) :: restMap))) = none
    rw [resolveIncludesIn_cycle]
  · rfl

/-- Configuration whose root state has two rules declaring combined states
over distinct ordered lists whose joined names collide: the list containing
the single state a__b, and the list containing the two states a and b. -/
def cfgCombinedCollision : ConfigLexer :=
  { states :=
    [ { name := "root",
        rules := [ { pattern := "x", token := some { type := "T1" },
                     combined := some { states := ["a__b"] } },
                   { pattern := "y", token := some { type := "T2" },
                     combined := some { states := ["a", "b"] } } ] },
      { name := "a", rules := [ { pattern := "pa", token := some { type := "KA" } } ] },
      { name := "b", rules := [ { pattern := "pb", token := some { type := "KB" } } ] },
      { name := "a__b", rules := [ { pattern := "pc", token := some { type := "KC" } } ] } ] }

/-- Compiled form of the single rule of state a of cfgCombinedCollision. -/
def aRuleC : rule := { pattern := { source := "\\Apa", matchTimeoutMs := 250 }, tok := "KA" }

/-- Compiled form of the single rule of state b of cfgCombinedCollision. -/
def bRuleC : rule := { pattern := { source := "\\Apb", matchTimeoutMs := 250 }, tok := "KB" }

/-- Compiled form of the single rule of state a__b of cfgCombinedCollision. -/
def cRuleC : rule := { pattern := { source := "\\Apc", matchTimeoutMs := 250 }, tok := "KC" }

/-- C10: the synthesized combined-state name is exactly __combined_ followed
by the substate names joined with __; the scheme is not injective (the
distinct lists [a__b] and [a, b] collide), and in a built configuration
declaring both lists the two declaring rules push the same single synthesized
state, the one built first. -/
theorem combined_state_name_scheme :
    (∀ c : ConfigCombined,
      combinedStateName c = "__combined_" ++ String.intercalate "__" c.states) ∧
    combinedStateName { states := ["a__b"] } = combinedStateName { states := ["a", "b"] } ∧
    ({ states := ["a__b"] } : ConfigCombined) ≠ { states := ["a", "b"] } ∧
    ((builtTable (Build okAll 20 cfgCombinedCollision)).Get "root").map
        (fun st => st.rules.map (fun r => r.pushState)) =
      some ["__combined_a__b", "__combined_a__b"] ∧
    ((builtTable (Build okAll 20 cfgCombinedCollision)).Get "__combined_a__b").map
        (fun st => st.rules) = some [cRuleC] := by
  exact ⟨fun c => rfl, rfl, by decide, rfl, rfl⟩

/-- C6 counterexample: in cfgCombinedCollision the second rule declares
Combined(states=[a, b]) and has its push target rewritten to
__combined_a__b, but the synthesized state of that name holds the rules of
the state a__b (the first list built), not the concatenation of the resolved
rules of a and b: the claim that every rule declaring Combined(L) gets a
state concatenating the rules of the states of L fails here. -/
theorem combined_name_collision_cex :
    ((builtTable (Build okAll 20 cfgCombinedCollision)).Get "root").map
        (fun st => st.rules.map (fun r => r.pushState)) =
      some ["__combined_a__b", "__combined_a__b"] ∧
    ((builtTable (Build okAll 20 cfgCombinedCollision)).Get "__combined_a__b").map
        (fun st => st.rules) = some [cRuleC] ∧
    ([cRuleC] : List rule) ≠ [aRuleC, bRuleC] ∧
    some [cRuleC] ≠ some [aRuleC, bRuleC] := by
  refine ⟨rfl, rfl, by decide, by decide⟩

/-- C6 (amended): combined-state synthesis is memoized by the synthesized
NAME (combinedStateName of the list), not by the list itself.  Every rule
declaring a list c has its push target rewritten to that name; the first rule
whose name is not yet in the table creates the single state holding the
concatenation of the current rules of the listed substates; any later rule
mapping to the same name (in particular any rule with the identical ordered
list) finds the state present and leaves the table unchanged, so the state is
never duplicated. -/
theorem combined_memoized_by_name
    (tbl : rulesMap) (sn : String) (cr₁ cr₂ : ConfigRule) (c : ConfigCombined)
    (rs : List rule)
    (h₁ : cr₁.combined = some c) (h₂ : cr₂.combined = some c)
    (hcollect : collectCombined tbl sn c.states [] = Except.ok rs)
    (hnew : tbl.Contains (combinedStateName c) = false) :
    (∀ r : rule, (updatePushForCombinedState r cr₁).pushState = combinedStateName c ∧
                 (updatePushForCombinedState r cr₂).pushState = combinedStateName c) ∧
    createCombinedStateInRule tbl sn cr₁ =
      Except.ok (tbl.AddState { name := combinedStateName c, rules := rs }) ∧
    createCombinedStateInRule (tbl.AddState { name := combinedStateName c, rules := rs }) sn cr₂ =
      Except.ok (tbl.AddState { name := combinedStateName c, rules := rs }) ∧
    (∀ ss : List String, (∀ s ∈ ss, (tbl.Get s).isSome = true) →
      ∀ acc, collectCombined tbl sn ss acc =
        Except.ok (acc ++ ss.flatMap (fun s => ((tbl.Get s).getD default).rules))) := by
  have hContainsAdd :
      (tbl.AddState { name := combinedStateName c, rules := rs }).Contains (combinedStateName c)
        = true := by
    unfold rulesMap.AddState
    rw [hnew]
    simp [rulesMap.Contains]
  refine ⟨?_, ?_, ?_, ?_⟩
  · intro r
    constructor
    · unfold updatePushForCombinedState
      rw [h₁]
    · unfold updatePushForCombinedState
      rw [h₂]
  · simp only [createCombinedStateInRule, h₁, hnew, Bool.false_eq_true, if_false, hcollect]
    rfl
  · simp only [createCombinedStateInRule, h₂, hContainsAdd, if_true]
  · intro ss
    induction ss with
    | nil => intro _ acc; simp [collectCombined]
    | cons s ss ih =>
      intro hdef acc
      have hs : (tbl.Get s).isSome = true := hdef s (List.mem_cons_self s ss)
      obtain ⟨st, hst⟩ := Option.isSome_iff_exists.mp hs
      have := ih (fun x hx => hdef x (List.mem_cons_of_mem s hx)) (acc ++ st.rules)
      simp only [collectCombined, hst] at this ⊢
      rw [this]
      simp [List.flatMap_cons, hst]

/-- Two-state table used to witness combined-state synthesis. -/
def tbl6 : rulesMap :=
  [("a", { name := "a", rules := [aRuleC] }), ("b", { name := "b", rules := [bRuleC] })]

/-- Rule declaring Combined(states=[a, b]), first occurrence. -/
def cr6a : ConfigRule :=
  { pattern := "x", token := some { type := "T1" }, combined := some { states := ["a", "b"] } }

/-- Rule declaring Combined(states=[a, b]), second occurrence. -/
def cr6b : ConfigRule :=
  { pattern := "y", token := some { type := "T2" }, combined := some { states := ["a", "b"] } }

/-- Witness for combined_memoized_by_name at a concrete table: the first rule
creates the combined state from the concatenated rules of a and b, and the
second rule with the same list leaves the table unchanged. -/
theorem combined_memoized_by_name_witness :
    createCombinedStateInRule tbl6 "root" cr6a =
      Except.ok (tbl6.AddState { name := "__combined_a__b", rules := [aRuleC, bRuleC] }) ∧
    createCombinedStateInRule
        (tbl6.AddState { name := "__combined_a__b", rules := [aRuleC, bRuleC] }) "root" cr6b =
      Except.ok (tbl6.AddState { name := "__combined_a__b", rules := [aRuleC, bRuleC] }) :=
  ⟨(combined_memoized_by_name tbl6 "root" cr6a cr6b { states := ["a", "b"] }
      [aRuleC, bRuleC] rfl rfl rfl rfl).2.1,
   (combined_memoized_by_name tbl6 "root" cr6a cr6b { states := ["a", "b"] }
      [aRuleC, bRuleC] rfl rfl rfl rfl).2.2.1⟩

/-- Formalization of the error condition asserted by the C7 claim, following
the spec wording: a conflict of the listed incompatible action categories, or
a rule with neither a pattern nor ANY directive. -/
def claimedConflictC7 (r : ConfigRule) : Bool :=
  (r.token.isSome && r.«include».isSome) ||
  (r.token.isSome && r.byGroups.isSome) ||
  (r.«include».isSome && r.byGroups.isSome) ||
  (r.push.isSome && r.pop.isSome) ||
  (r.combined.isSome && (r.push.isSome || r.pop.isSome || r.«include».isSome)) ||
  (r.pattern == "" && r.token.isNone && r.push.isNone && r.pop.isNone &&
    r.«include».isNone && r.combined.isNone && r.byGroups.isNone && r.usingSelf.isNone)

/-- Error condition actually implemented by checkRule: the same conflicts, but
the no-pattern check only looks at Push, Pop and Include, ignoring Token,
ByGroups, Combined and UsingSelf directives. -/
def checkRuleErrCond (r : ConfigRule) : Bool :=
  (r.pattern == "" && r.push.isNone && r.pop.isNone && r.«include».isNone) ||
  (r.pop.isSome && r.push.isSome) ||
  (r.token.isSome && r.«include».isSome) ||
  (r.token.isSome && r.byGroups.isSome) ||
  (r.«include».isSome && r.byGroups.isSome) ||
  (r.combined.isSome && (r.push.isSome || r.pop.isSome || r.«include».isSome))

/-- Rule with an empty pattern but a Token directive. -/
def rTokenOnly : ConfigRule := { pattern := "", token := some { type := "Text" } }

/-- C7 counterexample: a rule with no pattern but a Token directive is
rejected by checkRule, although the condition claimed by the spec (no pattern
AND no directive at all) does not hold for it, so the claimed biconditional
fails at this rule. -/
theorem checkRule_token_only_cex :
    isErr (checkRule rTokenOnly) = true ∧ claimedConflictC7 rTokenOnly = false := by
  exact ⟨rfl, rfl⟩

/-- C7 (amended): checkRule fails exactly when the rule combines one of the
listed incompatible action categories, or when it has no pattern and none of
Push, Pop, Include, regardless of any Token, ByGroups, Combined or UsingSelf
directive. -/
theorem checkRule_error_iff (r : ConfigRule) :
    isErr (checkRule r) = checkRuleErrCond r := by
  unfold checkRule checkRuleErrCond
  split_ifs with h1 h2 h3 h4 h5 h6 <;>
    simp_all [isErr, Option.isSome_iff_ne_none, Option.isNone_iff_eq_none,
      beq_iff_eq] <;> tauto

/-- Configuration with a single root state holding one token rule with the
given pattern. -/
def singlePatternCfg (pattern tokName : String) : ConfigLexer :=
  { states := [ { name := "root",
                  rules := [ { pattern := pattern, token := some { type := tokName } } ] } ] }

/-- C8: every rule pattern is compiled anchored, as the backslash-A escape
prepended to the declared pattern, and the compiled matcher gets a match
timeout of 250 milliseconds; a pattern that fails to compile makes the whole
build fail with the InvalidPattern error. -/
theorem makeRule_anchored_timeout_build_fails (compileOk : String → Bool) (pattern : String) :
    (compileOk ("\\A" ++ pattern) = true →
      makeRule compileOk pattern =
        Except.ok { pattern := { source := "\\A" ++ pattern, matchTimeoutMs := 250 } }) ∧
    (compileOk ("\\A" ++ pattern) = false →
      makeRule compileOk pattern = Except.error (BuildError.invalidPattern ("\\A" ++ pattern)) ∧
      (pattern ≠ "" → ∀ tokName fuel,
        Build compileOk fuel (singlePatternCfg pattern tokName) =
          some (Except.error (BuildError.invalidPattern ("\\A" ++ pattern))))) := by
  constructor
  · intro h
    unfold makeRule
    rw [if_pos h]
  · intro h
    have hmk : makeRule compileOk pattern =
        Except.error (BuildError.invalidPattern ("\\A" ++ pattern)) := by
      unfold makeRule
      rw [if_neg (by simp [h])]
    refine ⟨hmk, ?_⟩
    intro hp tokName fuel
    have hchk : checkRule { pattern := pattern, token := some { type := tokName } } =
        Except.ok () := by
      unfold checkRule
      rw [if_neg (by simp [hp])]
      rfl
    have hseq : ruleSequence compileOk [ { pattern := pattern, token := some { type := tokName } } ] =
        Except.error (BuildError.invalidPattern ("\\A" ++ pattern)) := by
      simp [ruleSequence, List.mapM, List.mapM.loop, hchk, hmk, Bind.bind, Except.bind]
    have hbs : buildStates compileOk (singlePatternCfg pattern tokName) =
        Except.error (BuildError.invalidPattern ("\\A" ++ pattern)) := by
      simp [buildStates, singlePatternCfg, hseq, Bind.bind, Except.bind]
    unfold Build
    rw [hbs]

/-- Witness for makeRule_anchored_timeout_build_fails: under an oracle that
accepts everything, the pattern abc compiles to an anchored matcher with a
250 millisecond timeout; under an oracle that rejects everything, the same
configuration fails to build with InvalidPattern. -/
theorem makeRule_anchored_timeout_witness :
    makeRule (fun _ => true) "abc" =
      Except.ok { pattern := { source := "\\Aabc", matchTimeoutMs := 250 } } ∧
    Build (fun _ => false) 10 (singlePatternCfg "abc" "Text") =
      some (Except.error (BuildError.invalidPattern "\\Aabc")) :=
  ⟨(makeRule_anchored_timeout_build_fails (fun _ => true) "abc").1 rfl,
   ((makeRule_anchored_timeout_build_fails (fun _ => false) "abc").2 rfl).2
     (by decide) "Text" 10⟩

/-- Table whose root state has a single rule that always matches zero
characters and pushes root again: every step is a zero-width match that
changes the stack, which the spec does not route to the error fallback. -/
def zeroWidthPushTable : STable :=
  [("root", [ { matchAt := fun _ _ => some 0, tok := "Text", pushState := "root" } ])]

/-- C3 counterexample: on the zero-width push table the spec tokenizer never
finishes on the one-character input, because a zero-width match that changes
the stack advances neither the position nor triggers the fallback; the claim
that tokenization of arbitrary input always runs to completion fails here. -/
theorem tokenizer_zero_width_push_diverges :
    tokenizeDiverges zeroWidthPushTable ['a'] := by
  have key : ∀ fuel stack,
      tokenize zeroWidthPushTable ['a'] fuel 0 ("root" :: stack) = none := by
    intro fuel
    induction fuel with
    | zero => intro stack; rfl
    | succ f ih =>
      intro stack
      have hstep : step zeroWidthPushTable ['a'] 0 ("root" :: stack) =
          ([{ typ := "Text", start := 0, length := 0 }], 0, "root" :: "root" :: stack) := by
        have hne : ("root" :: "root" :: stack) ≠ ("root" :: stack) := by
          intro hEq
          have := congrArg List.length hEq
          simp at this
        simp [step, STable.rulesOf, findMatch, applyStack, hne]
      show (match step zeroWidthPushTable ['a'] 0 ("root" :: stack) with
        | (ts, p1, stack1) =>
          (tokenize zeroWidthPushTable ['a'] f p1 stack1).map (fun rest => ts ++ rest)) = none
      rw [hstep]
      simp [ih ("root" :: stack)]
  intro fuel
  exact key fuel []

/-- No rule of the top-of-stack state makes progress at this position: every
match the scan can return is zero-width and leaves the stack unchanged (in
particular this holds when no rule matches at all). -/
def stepNoProgress (tbl : STable) (text : List Char) (p : Nat) (stack : List String) : Prop :=
  ∀ r n, findMatch (tbl.rulesOf (stack.headD "root")) text p = some (r, n) →
    n = 0 ∧ applyStack r stack = stack

/-- Every rule of the table only ever matches at least one character. -/
def positiveMatches (tbl : STable) : Prop :=
  ∀ name r, r ∈ tbl.rulesOf name → ∀ text p n, r.matchAt text p = some n → 0 < n

/-- Helper: a successful scan returns a rule of the list together with its
match length. -/
theorem findMatch_mem {rs : List SRule} {text : List Char} {p : Nat} {r : SRule} {n : Nat}
    (h : findMatch rs text p = some (r, n)) : r ∈ rs ∧ r.matchAt text p = some n := by
  induction rs with
  | nil => simp [findMatch] at h
  | cons r0 rs ih =>
    simp only [findMatch] at h
    cases hm : r0.matchAt text p with
    | some m =>
      rw [hm] at h
      obtain ⟨h1, h2⟩ := Prod.mk.injEq _ _ _ _ ▸ Option.some.injEq _ _ ▸ h
      exact ⟨by simp [← h1], by rw [← h1, hm, h2]⟩
    | none =>
      rw [hm] at h
      obtain ⟨hmem, hmat⟩ := ih h
      exact ⟨List.mem_cons_of_mem r0 hmem, hmat⟩

/-- Helper: the shape of one tokenizer step, stated for rewriting. -/
theorem step_eq (tbl : STable) (text : List Char) (p : Nat) (stack : List String) :
    step tbl text p stack =
      match findMatch (tbl.rulesOf (stack.headD "root")) text p with
      | none => ([errorToken p], p + 1, stack)
      | some (r, n) =>
        if n = 0 ∧ applyStack r stack = stack then ([errorToken p], p + 1, stack)
        else ([{ typ := r.tok, start := p, length := n }], p + n, applyStack r stack) := rfl

/-- Helper: mapping a function over an optional value keeps isSome. -/
theorem isSome_map_list (o : Option (List Token)) (g : List Token → List Token) :
    (o.map g).isSome = o.isSome := by
  cases o <;> rfl

/-- Helper: under positiveMatches every step strictly advances the
position. -/
theorem step_progress (tbl : STable) (text : List Char) (p : Nat) (stack : List String)
    (hpos : positiveMatches tbl) : p + 1 ≤ (step tbl text p stack).2.1 := by
  rw [step_eq]
  cases hm : findMatch (tbl.rulesOf (stack.headD "root")) text p with
  | none => simp
  | some rn =>
    obtain ⟨r, n⟩ := rn
    obtain ⟨hmem, hmat⟩ := findMatch_mem hm
    have hn : 0 < n := hpos (stack.headD "root") r hmem text p n hmat
    have hcond : ¬ (n = 0 ∧ applyStack r stack = stack) := by
      intro hc
      omega
    simp only [hcond, if_false]
    simpa using hn

/-- Helper: with every match strictly positive, a budget exceeding the number
of remaining characters always suffices. -/
theorem tokenize_complete (tbl : STable) (text : List Char) (hpos : positiveMatches tbl) :
    ∀ fuel p stack, text.length - p < fuel →
      (tokenize tbl text fuel p stack).isSome = true := by
  intro fuel
  induction fuel with
  | zero => intro p stack h; omega
  | succ f ih =>
    intro p stack h
    by_cases hlen : text.length ≤ p
    · simp [tokenize, hlen]
    · have hprog := step_progress tbl text p stack hpos
      rcases hs : step tbl text p stack with ⟨ts, p1, stack1⟩
      rw [hs] at hprog
      simp only [tokenize, hlen, if_false, hs, isSome_map_list]
      exact ih p1 stack1 (by simp at hprog; omega)

/-- C3 (amended): whenever, at the current position, no rule of the
top-of-stack state matches, or every match the scan can return consumes zero
characters and leaves the state stack unchanged, the tokenizer emits exactly
one Error token covering exactly one character and advances the position by
one.  Completion on arbitrary input holds whenever no reachable rule can make
a zero-width match that changes the stack, in particular whenever every rule
of the table only matches at least one character: then the budget of
remaining characters plus one always finishes.  (A zero-width match that
changes the stack is not routed to the fallback and can loop forever, see the
counterexample.) -/
theorem tokenizer_fallback_and_completion (tbl : STable) (text : List Char) :
    (∀ p stack, stepNoProgress tbl text p stack →
      step tbl text p stack = ([errorToken p], p + 1, stack)) ∧
    (positiveMatches tbl → ∀ p stack,
      (tokenize tbl text (text.length - p + 1) p stack).isSome = true) := by
  constructor
  · intro p stack h
    rw [step_eq]
    cases hm : findMatch (tbl.rulesOf (stack.headD "root")) text p with
    | none => rfl
    | some rn =>
      obtain ⟨r, n⟩ := rn
      obtain ⟨hn, hs⟩ := h r n hm
      simp [hn, hs]
  · intro hpos p stack
    exact tokenize_complete tbl text hpos (text.length - p + 1) p stack (by omega)

/-- Table with a root state and no rules: nothing ever matches. -/
def tblStepW : STable := [("root", [])]

/-- Table whose single root rule always matches exactly one character. -/
def tblPosW : STable := [("root", [ { matchAt := fun _ _ => some 1, tok := "Text" } ])]

/-- Witness for tokenizer_fallback_and_completion: on a table with no rules
the step at position 0 emits one Error token of length one and advances to 1;
on a table whose rule always consumes one character, tokenizing a
two-character text with budget three finishes. -/
theorem tokenizer_fallback_witness :
    step tblStepW ['a', 'b'] 0 ["root"] = ([errorToken 0], 1, ["root"]) ∧
    (tokenize tblPosW ['a', 'b'] 3 0 ["root"]).isSome = true := by
  constructor
  · exact (tokenizer_fallback_and_completion tblStepW ['a', 'b']).1 0 ["root"]
      (by
        intro r n h
        simp [STable.rulesOf, tblStepW, findMatch, List.find?] at h)
  · exact (tokenizer_fallback_and_completion tblPosW ['a', 'b']).2
      (by
        intro name r hr t p n hm
        by_cases hname : ("root" == name : Bool)
        · simp only [STable.rulesOf, tblPosW, List.find?, hname] at hr
          simp at hr
          rw [hr] at hm
          simp at hm
          omega
        · simp only [STable.rulesOf, tblPosW, List.find?] at hr
          rw [Bool.not_eq_true] at hname
          rw [hname] at hr
          simp at hr)
      0 ["root"]

/-- Unfolding equation: zero budget. -/
theorem resolveIncludesIn_zero (tbl : rulesMap) (l : List rule) :
    resolveIncludesIn tbl 0 l = none := rfl

/-- Unfolding equation: empty rule list. -/
theorem resolveIncludesIn_nil (tbl : rulesMap) (f : Nat) :
    resolveIncludesIn tbl (f + 1) [] = some (Except.ok []) := rfl

/-- Unfolding equation: one loop iteration of resolveIncludesIn. -/
theorem resolveIncludesIn_cons (tbl : rulesMap) (f : Nat) (r : rule) (rs : List rule) :
    resolveIncludesIn tbl (f + 1) (r :: rs) =
      if r.«include» = "" then
        match resolveIncludesIn tbl f rs with
        | none => none
        | some (Except.error e) => some (Except.error e)
        | some (Except.ok rest) => some (Except.ok (r :: rest))
      else
        match tbl.Get r.«include» with
        | none => some (Except.error (BuildError.includeOfUndefinedState r.«include»))
        | some st =>
          match resolveIncludesIn tbl f st.rules with
          | none => none
          | some (Except.error e) => some (Except.error e)
          | some (Except.ok resolved) =>
            match resolveIncludesIn tbl f rs with
            | none => none
            | some (Except.error e) => some (Except.error e)
            | some (Except.ok rest) => some (Except.ok (resolved ++ rest)) := rfl

/-- Helper: a nonzero budget resolves the empty list. -/
theorem resolveIncludesIn_nil_of_pos (tbl : rulesMap) (f : Nat) (h : 0 < f) :
    resolveIncludesIn tbl f [] = some (Except.ok []) := by
  cases f with
  | zero => omega
  | succ g => exact resolveIncludesIn_nil tbl g

/-- Helper: a successful resolution stays successful with one more unit of
budget. -/
theorem resolveIncludesIn_mono (tbl : rulesMap) :
    ∀ f l x, resolveIncludesIn tbl f l = some x →
      resolveIncludesIn tbl (f + 1) l = some x := by
  intro f
  induction f with
  | zero => intro l x h; rw [resolveIncludesIn_zero] at h; cases h
  | succ f ih =>
    intro l x h
    cases l with
    | nil =>
      rw [resolveIncludesIn_nil] at h
      rw [resolveIncludesIn_nil]
      exact h
    | cons r rs =>
      rw [resolveIncludesIn_cons] at h
      rw [resolveIncludesIn_cons]
      by_cases hr : r.«include» = ""
      · rw [if_pos hr] at h ⊢
        cases hrs : resolveIncludesIn tbl f rs with
        | none => rw [hrs] at h; cases h
        | some e =>
          rw [hrs] at h
          rw [ih rs e hrs]
          exact h
      · rw [if_neg hr] at h ⊢
        cases hget : tbl.Get r.«include» with
        | none => rw [hget] at h; exact h
        | some st =>
          rw [hget] at h
          dsimp only at h ⊢
          cases hst : resolveIncludesIn tbl f st.rules with
          | none => rw [hst] at h; cases h
          | some e1 =>
            rw [hst] at h
            rw [ih st.rules e1 hst]
            cases e1 with
            | error e => exact h
            | ok resolved =>
              dsimp only at h ⊢
              cases hrs : resolveIncludesIn tbl f rs with
              | none => rw [hrs] at h; cases h
              | some e2 =>
                rw [hrs] at h
                rw [ih rs e2 hrs]
                exact h

/-- Helper: a successful resolution stays successful with any larger
budget. -/
theorem resolveIncludesIn_mono_le (tbl : rulesMap) {f g : Nat} (hfg : f ≤ g) :
    ∀ l x, resolveIncludesIn tbl f l = some x → resolveIncludesIn tbl g l = some x := by
  induction hfg with
  | refl => intro l x h; exact h
  | step _ ih =>
    intro l x h
    exact resolveIncludesIn_mono tbl _ l x (ih l x h)

/-- A rule list that contains no include rule. -/
def noIncludeIn (l : List rule) : Prop := ∀ r ∈ l, r.«include» = ""

instance noIncludeInDecidable (l : List rule) : Decidable (noIncludeIn l) :=
  List.decidableBAll (fun (r : rule) => r.«include» = "") l

/-- Helper: an include-free rule list resolves to itself once the budget
exceeds its length. -/
theorem resolve_noInclude (tbl : rulesMap) :
    ∀ l f, noIncludeIn l → l.length < f →
      resolveIncludesIn tbl f l = some (Except.ok l) := by
  intro l
  induction l with
  | nil =>
    intro f _ hf
    exact resolveIncludesIn_nil_of_pos tbl f (by omega)
  | cons r rs ih =>
    intro f hni hf
    cases f with
    | zero => omega
    | succ g =>
      rw [resolveIncludesIn_cons]
      rw [if_pos (hni r (List.mem_cons_self r rs))]
      rw [ih g (fun x hx => hni x (List.mem_cons_of_mem r hx)) (by simp at hf; omega)]

/-- Helper: resolution distributes over list concatenation, with the budgets
adding up. -/
theorem resolve_append (tbl : rulesMap) :
    ∀ (l1 : List rule) (f1 f2 : Nat) (l2 : List rule) (o1 o2 : List rule),
      resolveIncludesIn tbl f1 l1 = some (Except.ok o1) →
      resolveIncludesIn tbl f2 l2 = some (Except.ok o2) →
      resolveIncludesIn tbl (f1 + f2) (l1 ++ l2) = some (Except.ok (o1 ++ o2)) := by
  intro l1
  induction l1 with
  | nil =>
    intro f1 f2 l2 o1 o2 h1 h2
    cases f1 with
    | zero => rw [resolveIncludesIn_zero] at h1; cases h1
    | succ g =>
      rw [resolveIncludesIn_nil] at h1
      have ho1 : o1 = [] := by
        injection h1 with h
        injection h with h
        exact h.symm
      subst ho1
      simp only [List.nil_append]
      exact resolveIncludesIn_mono_le tbl (by omega) l2 _ h2
  | cons r rs ih =>
    intro f1 f2 l2 o1 o2 h1 h2
    cases f1 with
    | zero => rw [resolveIncludesIn_zero] at h1; cases h1
    | succ g =>
      have hfe : g + 1 + f2 = (g + f2) + 1 := by omega
      rw [hfe]
      rw [resolveIncludesIn_cons] at h1
      rw [List.cons_append, resolveIncludesIn_cons]
      by_cases hr : r.«include» = ""
      · rw [if_pos hr] at h1 ⊢
        cases hrs : resolveIncludesIn tbl g rs with
        | none => rw [hrs] at h1; cases h1
        | some e =>
          rw [hrs] at h1
          cases e with
          | error e => simp at h1
          | ok rest =>
            dsimp only at h1
            have ho1 : o1 = r :: rest := by
              injection h1 with h
              injection h with h
              exact h.symm
            subst ho1
            rw [ih g f2 l2 rest o2 hrs h2]
            simp
      · rw [if_neg hr] at h1 ⊢
        cases hget : tbl.Get r.«include» with
        | none => rw [hget] at h1; simp at h1
        | some st =>
          rw [hget] at h1
          dsimp only at h1 ⊢
          cases hst : resolveIncludesIn tbl g st.rules with
          | none => rw [hst] at h1; cases h1
          | some e1 =>
            rw [hst] at h1
            cases e1 with
            | error e => simp at h1
            | ok resolved =>
              dsimp only at h1
              rw [resolveIncludesIn_mono_le tbl (by omega) st.rules _ hst]
              dsimp only
              cases hrs : resolveIncludesIn tbl g rs with
              | none => rw [hrs] at h1; cases h1
              | some e2 =>
                rw [hrs] at h1
                cases e2 with
                | error e => simp at h1
                | ok rest =>
                  dsimp only at h1
                  have ho1 : o1 = resolved ++ rest := by
                    injection h1 with h
                    injection h with h
                    exact h.symm
                  subst ho1
                  rw [ih g f2 l2 rest o2 hrs h2]
                  simp

/-- Helper: a successful resolution leaves no residual include rule in its
output. -/
theorem resolve_noResidual (tbl : rulesMap) :
    ∀ f l out, resolveIncludesIn tbl f l = some (Except.ok out) → noIncludeIn out := by
  intro f
  induction f with
  | zero => intro l out h; rw [resolveIncludesIn_zero] at h; cases h
  | succ g ih =>
    intro l out h
    cases l with
    | nil =>
      rw [resolveIncludesIn_nil] at h
      have hout : out = [] := by
        injection h with h
        injection h with h
        exact h.symm
      subst hout
      intro r hr
      simp at hr
    | cons r rs =>
      rw [resolveIncludesIn_cons] at h
      by_cases hr : r.«include» = ""
      · rw [if_pos hr] at h
        cases hrs : resolveIncludesIn tbl g rs with
        | none => rw [hrs] at h; cases h
        | some e =>
          rw [hrs] at h
          cases e with
          | error e => simp at h
          | ok rest =>
            dsimp only at h
            have hout : out = r :: rest := by
              injection h with h
              injection h with h
              exact h.symm
            subst hout
            intro x hx
            rcases List.mem_cons.mp hx with hx | hx
            · rw [hx]; exact hr
            · exact ih rs rest hrs x hx
      · rw [if_neg hr] at h
        cases hget : tbl.Get r.«include» with
        | none => rw [hget] at h; simp at h
        | some st =>
          rw [hget] at h
          dsimp only at h
          cases hst : resolveIncludesIn tbl g st.rules with
          | none => rw [hst] at h; cases h
          | some e1 =>
            rw [hst] at h
            cases e1 with
            | error e => simp at h
            | ok resolved =>
              dsimp only at h
              cases hrs : resolveIncludesIn tbl g rs with
              | none => rw [hrs] at h; cases h
              | some e2 =>
                rw [hrs] at h
                cases e2 with
                | error e => simp at h
                | ok rest =>
                  dsimp only at h
                  have hout : out = resolved ++ rest := by
                    injection h with h
                    injection h with h
                    exact h.symm
                  subst hout
                  intro x hx
                  rcases List.mem_append.mp hx with hx | hx
                  · exact ih st.rules resolved hst x hx
                  · exact ih rs rest hrs x hx

/-- Helper: resolving a singleton include rule inlines the full resolution of
the referenced state. -/
theorem resolve_single_include (tbl : rulesMap) (r : rule) (st : state) (res : List rule)
    (f : Nat) (hne : r.«include» ≠ "") (hget : tbl.Get r.«include» = some st)
    (hres : resolveIncludesIn tbl f st.rules = some (Except.ok res)) :
    resolveIncludesIn tbl (f + 1) [r] = some (Except.ok res) := by
  cases f with
  | zero => rw [resolveIncludesIn_zero] at hres; cases hres
  | succ g =>
    rw [resolveIncludesIn_cons, if_neg hne, hget]
    dsimp only
    rw [hres]
    dsimp only
    rw [resolveIncludesIn_nil_of_pos tbl (g + 1) (by omega)]
    simp

/-- C4: in a configuration where state A includes state B and B includes
state C (context rules around the include rules being include-free), the
resolved rule list of A is exactly A-prefix, then B-prefix, then the rules of
C, then B-suffix, then A-suffix: each Include is replaced depth-first,
preserving relative order, by the fully resolved rules of the referenced
state; moreover no successful resolution output retains any residual include
rule. -/
theorem include_transitivity
    (tbl : rulesMap) (stA stB stC : state) (aN bN cN : String) (rA rB : rule)
    (la1 la2 lb1 lb2 lc : List rule)
    (hA : tbl.Get aN = some stA) (hArules : stA.rules = la1 ++ rA :: la2)
    (hrA : rA.«include» = bN) (hbne : bN ≠ "")
    (hB : tbl.Get bN = some stB) (hBrules : stB.rules = lb1 ++ rB :: lb2)
    (hrB : rB.«include» = cN) (hcne : cN ≠ "")
    (hC : tbl.Get cN = some stC) (hCrules : stC.rules = lc)
    (h1 : noIncludeIn la1) (h2 : noIncludeIn la2)
    (h3 : noIncludeIn lb1) (h4 : noIncludeIn lb2) (h5 : noIncludeIn lc) :
    (∀ f, resolveIncludesIn tbl
        (la1.length + la2.length + lb1.length + lb2.length + lc.length + 7 + f) stA.rules =
      some (Except.ok (la1 ++ (lb1 ++ lc ++ lb2) ++ la2))) ∧
    (∀ f l out, resolveIncludesIn tbl f l = some (Except.ok out) → noIncludeIn out) := by
  refine ⟨?_, resolve_noResidual tbl⟩
  intro f
  have hc : resolveIncludesIn tbl (lc.length + 1) stC.rules = some (Except.ok lc) := by
    rw [hCrules]
    exact resolve_noInclude tbl lc (lc.length + 1) h5 (by omega)
  have hrBr : resolveIncludesIn tbl (lc.length + 2) [rB] = some (Except.ok lc) :=
    resolve_single_include tbl rB stC lc (lc.length + 1)
      (by rw [hrB]; exact hcne) (by rw [hrB]; exact hC) hc
  have h45 : resolveIncludesIn tbl (lb2.length + 1) lb2 = some (Except.ok lb2) :=
    resolve_noInclude tbl lb2 _ h4 (by omega)
  have hmid : resolveIncludesIn tbl ((lc.length + 2) + (lb2.length + 1)) ([rB] ++ lb2) =
      some (Except.ok (lc ++ lb2)) :=
    resolve_append tbl [rB] _ _ lb2 lc lb2 hrBr h45
  have hfirst : resolveIncludesIn tbl (lb1.length + 1) lb1 = some (Except.ok lb1) :=
    resolve_noInclude tbl lb1 _ h3 (by omega)
  have hb : resolveIncludesIn tbl
      ((lb1.length + 1) + ((lc.length + 2) + (lb2.length + 1))) stB.rules =
      some (Except.ok (lb1 ++ (lc ++ lb2))) := by
    rw [hBrules]
    exact resolve_append tbl lb1 _ _ ([rB] ++ lb2) lb1 (lc ++ lb2) hfirst hmid
  have hrAr : resolveIncludesIn tbl
      (((lb1.length + 1) + ((lc.length + 2) + (lb2.length + 1))) + 1) [rA] =
      some (Except.ok (lb1 ++ (lc ++ lb2))) :=
    resolve_single_include tbl rA stB _ _
      (by rw [hrA]; exact hbne) (by rw [hrA]; exact hB) hb
  have ha2 : resolveIncludesIn tbl (la2.length + 1) la2 = some (Except.ok la2) :=
    resolve_noInclude tbl la2 _ h2 (by omega)
  have hmid2 := resolve_append tbl [rA] _ _ la2 (lb1 ++ (lc ++ lb2)) la2 hrAr ha2
  have ha1 : resolveIncludesIn tbl (la1.length + 1) la1 = some (Except.ok la1) :=
    resolve_noInclude tbl la1 _ h1 (by omega)
  have hfinal := resolve_append tbl la1 _ _ ([rA] ++ la2) la1
    ((lb1 ++ (lc ++ lb2)) ++ la2) ha1 hmid2
  have hfuel : (la1.length + 1) +
      ((((lb1.length + 1) + ((lc.length + 2) + (lb2.length + 1))) + 1) + (la2.length + 1)) ≤
      la1.length + la2.length + lb1.length + lb2.length + lc.length + 7 + f := by omega
  have hlift := resolveIncludesIn_mono_le tbl hfuel _ _ hfinal
  rw [hArules]
  have hlist : la1 ++ ((lb1 ++ (lc ++ lb2)) ++ la2) = la1 ++ (lb1 ++ lc ++ lb2) ++ la2 := by
    simp [List.append_assoc]
  rw [← hlist]
  exact hlift

/-- Token rule used in the include-transitivity witness. -/
def tokRuleN (t : String) : rule :=
  { pattern := { source := "\\A.", matchTimeoutMs := 250 }, tok := t }

/-- Include rule used in the include-transitivity witness. -/
def incRuleN (s : String) : rule :=
  { pattern := { source := "\\A", matchTimeoutMs := 250 }, «include» := s }

/-- Table where root includes b between two token rules, b includes c before
a token rule, and c holds one token rule. -/
def tblABC : rulesMap :=
  [("root", { name := "root", rules := [tokRuleN "A1", incRuleN "b", tokRuleN "A2"] }),
   ("b", { name := "b", rules := [incRuleN "c", tokRuleN "B1"] }),
   ("c", { name := "c", rules := [tokRuleN "C1"] })]

/-- Witness for include_transitivity on tblABC: the resolved root rules are
A-prefix, then the rules of c, then the rest of b, then the rest of root, in
declared order. -/
theorem include_transitivity_witness :
    resolveIncludesIn tblABC 11 [tokRuleN "A1", incRuleN "b", tokRuleN "A2"] =
      some (Except.ok [tokRuleN "A1", tokRuleN "C1", tokRuleN "B1", tokRuleN "A2"]) :=
  (include_transitivity tblABC
    { name := "root", rules := [tokRuleN "A1", incRuleN "b", tokRuleN "A2"] }
    { name := "b", rules := [incRuleN "c", tokRuleN "B1"] }
    { name := "c", rules := [tokRuleN "C1"] }
    "root" "b" "c" (incRuleN "b") (incRuleN "c")
    [tokRuleN "A1"] [tokRuleN "A2"] [] [tokRuleN "B1"] [tokRuleN "C1"]
    rfl rfl rfl (by decide) rfl rfl rfl (by decide) rfl rfl
    (by decide) (by decide) (by decide) (by decide) (by decide)).1 0
